import Mathlib

/-!
Verification of the detection-orchestration and deduplication core of a
client-side barcode scanner.

The development shallowly embeds the TypeScript sources:
* `DeduplicationManager` (utils/deduplication.ts): a keyed, time-windowed
  aggregation store backed by a JS `Map`.  The map is modelled as an
  insertion-ordered association list; `Map.set` on an existing key keeps
  the original position, which `mapSet` reproduces.
* `useBarcodeDetection.detectFromImage`: the single-shot analysis wrapper
  that races the decode capability against a 5000 ms timeout and converts
  every failure into a resolved empty result.
* `App.handleCapturePhoto`: the single-shot scan state machine
  idle -> processing -> (completed | no-result | error).

Wall-clock time (`Date.now()`, milliseconds) is modelled as `Nat`.  Where a
code path performs several `Date.now()` reads, the clock is a function from
the read index to the instant read.
-/

set_option autoImplicit false

namespace BarcodeScanner

/-- `BarcodeResult` from types/barcode.types.ts: the unit of aggregation
and display produced by the deduplication store. -/
structure BarcodeResult where
  id : String
  value : String
  format : String
  firstDetected : Nat
  lastDetected : Nat
  detectionCount : Nat
  deriving DecidableEq, Repr

/-- `BarcodeEntry` from utils/deduplication.ts: a stored result together
with its window expiry instant. -/
structure BarcodeEntry where
  result : BarcodeResult
  expiresAt : Nat
  deriving DecidableEq, Repr

/-- The private `barcodeMap : Map<string, BarcodeEntry>` of
`DeduplicationManager`, as an insertion-ordered association list. -/
abbrev DedupMap := List (String × BarcodeEntry)

/-- `DUPLICATE_WINDOW_MS = 2000` from utils/deduplication.ts. -/
def DUPLICATE_WINDOW_MS : Nat := 2000

/-- `Map.prototype.get`: first (only) entry stored under the key. -/
def mapGet (m : DedupMap) (k : String) : Option BarcodeEntry :=
  match m with
  | [] => none
  | (k₂, e) :: rest => if k₂ = k then some e else mapGet rest k

/-- `Map.prototype.set`: overwrite in place when the key is present
(keeping its insertion position), append otherwise. -/
def mapSet (m : DedupMap) (k : String) (v : BarcodeEntry) : DedupMap :=
  match m with
  | [] => [(k, v)]
  | (k₂, e) :: rest => if k₂ = k then (k, v) :: rest else (k₂, e) :: mapSet rest k v

namespace DeduplicationManager

/-- `generateKey(value, format)`: the composite key `format + ":" + value`. -/
def generateKey (value format : String) : String :=
  format ++ ":" ++ value

/-- `addOrUpdate(value, format, timestamp)`.  `now` is the `Date.now()`
read inside the method.  Returns the announced result (`null` on a live
duplicate) together with the updated map.  Note that the duplicate branch
only rewrites `lastDetected` and `detectionCount`; it leaves `expiresAt`
as it was stored. -/
def addOrUpdate (m : DedupMap) (value format : String) (timestamp now : Nat) :
    Option BarcodeResult × DedupMap :=
  let key := generateKey value format
  match mapGet m key with
  | some existing =>
    if now < existing.expiresAt then
      (none,
       mapSet m key
         { existing with
             result :=
               { existing.result with
                   lastDetected := timestamp,
                   detectionCount := existing.result.detectionCount + 1 } })
    else
      let result : BarcodeResult :=
        { id := key, value := value, format := format,
          firstDetected := timestamp, lastDetected := timestamp,
          detectionCount := 1 }
      (some result, mapSet m key { result := result, expiresAt := now + DUPLICATE_WINDOW_MS })
  | none =>
    let result : BarcodeResult :=
      { id := key, value := value, format := format,
        firstDetected := timestamp, lastDetected := timestamp,
        detectionCount := 1 }
    (some result, mapSet m key { result := result, expiresAt := now + DUPLICATE_WINDOW_MS })

/-- Insertion step of the `results.sort((a, b) => b.firstDetected - a.firstDetected)`
call: place `r` after every element whose `firstDetected` is at least as large. -/
def insertDesc (r : BarcodeResult) : List BarcodeResult → List BarcodeResult
  | [] => [r]
  | x :: xs => if r.firstDetected ≤ x.firstDetected then x :: insertDesc r xs else r :: x :: xs

/-- Sorting by `firstDetected` descending, as the comparator
`(a, b) => b.firstDetected - a.firstDetected` orders the result array. -/
def sortDesc : List BarcodeResult → List BarcodeResult
  | [] => []
  | x :: xs => insertDesc x (sortDesc xs)

/-- The `for (const [key, entry] of this.barcodeMap.entries())` sweep of
`getResults`: keep (and report) the live entries in insertion order,
delete the expired ones. -/
def getResultsLoop (now : Nat) : DedupMap → List BarcodeResult × DedupMap
  | [] => ([], [])
  | (k, e) :: rest =>
    let (rs, m₂) := getResultsLoop now rest
    if now < e.expiresAt then (e.result :: rs, (k, e) :: m₂) else (rs, m₂)

/-- `getResults()`: sweep out expired entries, then return the survivors
sorted by `firstDetected` descending.  `now` is the `Date.now()` read at
the top of the method. -/
def getResults (m : DedupMap) (now : Nat) : List BarcodeResult × DedupMap :=
  (sortDesc (getResultsLoop now m).1, (getResultsLoop now m).2)

/-- `clear()`: `this.barcodeMap.clear()`. -/
def clear (_m : DedupMap) : DedupMap := []

end DeduplicationManager

/-- `DETECTION_TIMEOUT = 5000` from useBarcodeDetection.ts. -/
def DETECTION_TIMEOUT : Nat := 5000

/-- The message of the timeout rejection, "Detection timeout (5000ms)",
interpolating `DETECTION_TIMEOUT`. -/
def timeoutMessage : String :=
  "Detection timeout (" ++ toString DETECTION_TIMEOUT ++ "ms)"

/-- The message assigned when the decode list comes back empty. -/
def noBarcodesMessage : String :=
  "No barcodes found in this image. Try again."

/-- A raw `(code, format)` pair pushed onto `results` by the analysis
callback (the `location` field plays no part in the logic). -/
structure RawBarcode where
  code : String
  format : String
  deriving DecidableEq, Repr

/-- `const value = result.code || result;` — the empty string is falsy in
JS, in which case the whole result object is used and later coerced to
the string "[object Object]" when interpolated into the key. -/
def barcodeValue (b : RawBarcode) : String :=
  if b.code = "" then "[object Object]" else b.code

/-- `const format = result.format || 'unknown';` -/
def barcodeFormat (b : RawBarcode) : String :=
  if b.format = "" then "unknown" else b.format

/-- The hook's `detectionState`: `{ results, isScanning, error }`. -/
structure DetectionState where
  results : List BarcodeResult
  isScanning : Bool
  error : Option String
  deriving DecidableEq, Repr

/-- The hook's full mutable state: its React state plus the
`deduplicationManager` singleton it drives. -/
structure HookState where
  detection : DetectionState
  dedup : DedupMap
  deriving DecidableEq, Repr

/-- How the `Promise.race` of the analysis promise against the timeout
promise settles: the decoded list, an analysis rejection (image load
failure, missing canvas context, or an exception), or the 5000 ms timeout
firing first. -/
inductive AnalysisOutcome where
  | ok (barcodes : List RawBarcode)
  | fail (msg : String)
  | timeout
  deriving DecidableEq, Repr

/-- The `for (const result of detectedBarcodes)` loop feeding
`deduplicationManager.addOrUpdate(value, format, Date.now())`.  Each
iteration reads `Date.now()` twice: once as the `timestamp` argument and
once inside `addOrUpdate`; `i` is the index of the next clock read. -/
def processBarcodes (clock : Nat → Nat) : Nat → DedupMap → List RawBarcode → DedupMap × Nat
  | i, m, [] => (m, i)
  | i, m, b :: rest =>
    let m₂ := (DeduplicationManager.addOrUpdate m (barcodeValue b) (barcodeFormat b)
      (clock i) (clock (i + 1))).2
    processBarcodes clock (i + 2) m₂ rest

/-- `detectFromImage` after the race has settled as `outcome`.  The body
first sets `isScanning` and clears the deduplication store, then either
feeds the decoded list through the store and reads it back, or lands in
the catch-all which records the message and resolves with `[]`.  The
returned list is the promise's resolution value: the function is total,
so no outcome makes the promise reject. -/
def detectFromImage (clock : Nat → Nat) (outcome : AnalysisOutcome) (_st : HookState) :
    List BarcodeResult × HookState :=
  match outcome with
  | .ok bs =>
    if bs.length > 0 then
      let pr := processBarcodes clock 0 [] bs
      let gr := DeduplicationManager.getResults pr.1 (clock pr.2)
      (gr.1,
       { detection := { results := gr.1, isScanning := false, error := none },
         dedup := gr.2 })
    else
      ([],
       { detection := { results := [], isScanning := false, error := some noBarcodesMessage },
         dedup := [] })
  | .fail msg =>
    ([],
     { detection := { results := [], isScanning := false, error := some msg },
       dedup := [] })
  | .timeout =>
    ([],
     { detection := { results := [], isScanning := false, error := some timeoutMessage },
       dedup := [] })

/-- The scan state machine of App.tsx. -/
inductive ScanState where
  | idle
  | processing
  | completed
  | noResult
  | error
  deriving DecidableEq, Repr

/-- App state touched by `handleCapturePhoto`: `scanState` and `errorMessage`. -/
structure AppState where
  scanState : ScanState
  errorMessage : Option String
  deriving DecidableEq, Repr

/-- `handleCapturePhoto`: guard on the video ref, enter `processing`,
capture (`photo = none` models `captureAsDataUrl` returning `null`),
await `detectFromImage`, and branch on the length of the resolved list.
The first component records every `setScanState` call in order.  The
`catch` branch of the source is unreachable from detection failures
because `detectFromImage` always resolves. -/
def handleCapturePhoto (clock : Nat → Nat) (videoPresent : Bool) (photo : Option String)
    (outcome : AnalysisOutcome) (app : AppState) (hook : HookState) :
    List ScanState × AppState × HookState :=
  if videoPresent then
    match photo with
    | none =>
      ([.processing, .error],
       { scanState := .error, errorMessage := some "Failed to capture photo" }, hook)
    | some _ =>
      let r := detectFromImage clock outcome hook
      if r.1.length > 0 then
        ([.processing, .completed], { scanState := .completed, errorMessage := none }, r.2)
      else
        ([.processing, .noResult], { scanState := .noResult, errorMessage := none }, r.2)
  else ([], app, hook)

/-- A call into the deduplication store, as issued by a client. -/
inductive DedupOp where
  | add (value format : String) (timestamp : Nat)
  | get
  deriving DecidableEq, Repr

/-- An operation paired with the wall-clock instant `Date.now()` reads
during that call. -/
abbrev TimedOp := DedupOp × Nat

/-- What a client can observe about window lifetime from one call:
whether `addOrUpdate` announced (returned non-null), and which keys a
`getResults` call evicted. -/
inductive DedupObs where
  | announced (fresh : Bool)
  | evicted (keys : List String)
  deriving DecidableEq, Repr

/-- The keys `getResults` deletes at instant `now`: those whose
`expiresAt` is not in the future. -/
def evictedKeys (m : DedupMap) (now : Nat) : List String :=
  (m.filter fun ke => !decide (now < ke.2.expiresAt)).map Prod.fst

/-- Run a sequence of timed calls against the store, collecting the
lifetime-relevant observation of each call. -/
def runOps : DedupMap → List TimedOp → List DedupObs
  | _, [] => []
  | m, (.add v f ts, now) :: rest =>
    let (r, m₂) := DeduplicationManager.addOrUpdate m v f ts now
    .announced r.isSome :: runOps m₂ rest
  | m, (.get, now) :: rest =>
    let m₂ := (DeduplicationManager.getResults m now).2
    .evicted (evictedKeys m now) :: runOps m₂ rest

/-- Two call sequences agree on everything except the `timestamp`
arguments of their `add` calls: same shape, same values, formats and
wall-clock instants. -/
def opsMatch : List TimedOp → List TimedOp → Bool
  | [], [] => true
  | (.add v₁ f₁ _, n₁) :: r₁, (.add v₂ f₂ _, n₂) :: r₂ =>
    v₁ = v₂ && f₁ = f₂ && n₁ = n₂ && opsMatch r₁ r₂
  | (.get, n₁) :: r₁, (.get, n₂) :: r₂ => n₁ = n₂ && opsMatch r₁ r₂
  | _, _ => false

/-- The timestamp-free part of the store: each key with its expiry
instant.  Window lifetime decisions depend only on this. -/
def shape (m : DedupMap) : List (String × Nat) :=
  m.map fun ke => (ke.1, ke.2.expiresAt)

/-! ## Basic lemmas about the map embedding -/

theorem mapGet_mapSet_self (m : DedupMap) (k : String) (v : BarcodeEntry) :
    mapGet (mapSet m k v) k = some v := by
  induction m with
  | nil => simp [mapSet, mapGet]
  | cons ke rest ih =>
    by_cases h : ke.1 = k
    · simp [mapSet, mapGet, h]
    · simp [mapSet, mapGet, h, ih]

theorem mapGet_mem {m : DedupMap} {k : String} {e : BarcodeEntry}
    (h : mapGet m k = some e) : (k, e) ∈ m := by
  induction m with
  | nil => simp [mapGet] at h
  | cons ke rest ih =>
    rw [mapGet] at h
    by_cases hk : ke.1 = k
    · rw [if_pos hk] at h
      have hke : ke = (k, e) := by
        cases ke
        simp_all
      rw [← hke]
      exact List.mem_cons_self _ _
    · rw [if_neg hk] at h
      exact List.mem_cons_of_mem _ (ih h)

theorem mapSet_ne_nil (m : DedupMap) (k : String) (v : BarcodeEntry) :
    mapSet m k v ≠ [] := by
  cases m with
  | nil => simp [mapSet]
  | cons ke rest =>
    rw [mapSet]
    by_cases h : ke.1 = k <;> simp [h]

theorem mem_mapSet {m : DedupMap} {k : String} {v : BarcodeEntry} {ke : String × BarcodeEntry}
    (h : ke ∈ mapSet m k v) : ke = (k, v) ∨ ke ∈ m := by
  induction m with
  | nil => simpa [mapSet] using h
  | cons ke₂ rest ih =>
    rw [mapSet] at h
    by_cases hk : ke₂.1 = k
    · rw [if_pos hk] at h
      rcases List.mem_cons.mp h with h | h
      · exact Or.inl h
      · exact Or.inr (List.mem_cons_of_mem _ h)
    · rw [if_neg hk] at h
      rcases List.mem_cons.mp h with h | h
      · exact Or.inr (h ▸ List.mem_cons_self _ _)
      · rcases ih h with h | h
        · exact Or.inl h
        · exact Or.inr (List.mem_cons_of_mem _ h)

/-! ## C1: behaviour of `addOrUpdate` on a live duplicate -/

/-- C1 (counterexample): the claim says a live duplicate refreshes the
entry's `expiresAt` to `now + WINDOW_DURATION`.  It does not: after a
first detection at wall-clock 100 (expiry 2100) a duplicate at wall-clock
200 returns null but leaves `expiresAt` at 2100, not 200 + 2000. -/
theorem duplicate_leaves_expiresAt_unchanged :
    ((DeduplicationManager.addOrUpdate
        (DeduplicationManager.addOrUpdate [] "v" "f" 10 100).2 "v" "f" 20 200).1 = none)
    ∧ ((mapGet (DeduplicationManager.addOrUpdate
          (DeduplicationManager.addOrUpdate [] "v" "f" 10 100).2 "v" "f" 20 200).2 "f:v").map
         (fun e => e.expiresAt) = some 2100)
    ∧ (2100 : Nat) ≠ 200 + DUPLICATE_WINDOW_MS := by
  decide

/-- C1 (amended): if at the moment of the call the store holds an entry
for `format + ":" + value` whose `expiresAt` is strictly greater than the
wall-clock `now` of the call, then `addOrUpdate(value, format, timestamp)`
sets that entry's `lastDetected` to `timestamp`, increments its
`detectionCount` by one, returns null, and leaves `id`, `value`, `format`,
`firstDetected` — and also `expiresAt` — unchanged. -/
theorem addOrUpdate_live_duplicate_updates_entry
    (m : DedupMap) (v f : String) (ts now : Nat) (e : BarcodeEntry)
    (hget : mapGet m (DeduplicationManager.generateKey v f) = some e)
    (hlive : now < e.expiresAt) :
    DeduplicationManager.addOrUpdate m v f ts now =
      (none,
       mapSet m (DeduplicationManager.generateKey v f)
         { e with
             result :=
               { e.result with
                   lastDetected := ts,
                   detectionCount := e.result.detectionCount + 1 } })
    ∧ mapGet (DeduplicationManager.addOrUpdate m v f ts now).2
        (DeduplicationManager.generateKey v f) =
      some { result := { id := e.result.id, value := e.result.value, format := e.result.format, firstDetected := e.result.firstDetected, lastDetected := ts, detectionCount := e.result.detectionCount + 1 },
             expiresAt := e.expiresAt } := by
  constructor
  · simp only [DeduplicationManager.addOrUpdate, hget, if_pos hlive]
  · simp only [DeduplicationManager.addOrUpdate, hget, if_pos hlive]
    rw [mapGet_mapSet_self]

/-- Witness for C1's amended theorem at a concrete live entry. -/
theorem addOrUpdate_live_duplicate_updates_entry_witness :
    (500 : Nat) < 1000
    ∧ (DeduplicationManager.addOrUpdate
        [("f:v", { result := { id := "f:v", value := "v", format := "f", firstDetected := 5, lastDetected := 5, detectionCount := 3 }, expiresAt := 1000 })]
        "v" "f" 7 500).1 = none
    ∧ (mapGet (DeduplicationManager.addOrUpdate
        [("f:v", { result := { id := "f:v", value := "v", format := "f", firstDetected := 5, lastDetected := 5, detectionCount := 3 }, expiresAt := 1000 })]
        "v" "f" 7 500).2 (DeduplicationManager.generateKey "v" "f")).map
        (fun en => en.result.lastDetected) = some 7 := by
  have h := addOrUpdate_live_duplicate_updates_entry
    [("f:v", { result := { id := "f:v", value := "v", format := "f", firstDetected := 5, lastDetected := 5, detectionCount := 3 }, expiresAt := 1000 })]
    "v" "f" 7 500
    { result := { id := "f:v", value := "v", format := "f", firstDetected := 5, lastDetected := 5, detectionCount := 3 }, expiresAt := 1000 }
    (by decide) (by decide)
  refine ⟨by decide, ?_, ?_⟩
  · rw [h.1]
  · rw [h.2]
    rfl

/-! ## C2: behaviour of `addOrUpdate` with no entry or an expired entry -/

/-- C2: if at the moment of the call the store holds no entry for the
key, or holds one whose `expiresAt` is at most the wall-clock `now` of
the call, then `addOrUpdate` stores a brand-new entry with
`firstDetected = lastDetected = timestamp`, `detectionCount = 1` and
`expiresAt = now + WINDOW_DURATION`, and returns that entry (non-null):
an expired entry is replaced outright, never resurrected with its old
count or old `firstDetected`. -/
theorem addOrUpdate_fresh_or_expired_creates_new_entry
    (m : DedupMap) (v f : String) (ts now : Nat)
    (h : ∀ e : BarcodeEntry,
      mapGet m (DeduplicationManager.generateKey v f) = some e → e.expiresAt ≤ now) :
    DeduplicationManager.addOrUpdate m v f ts now =
      (some { id := DeduplicationManager.generateKey v f, value := v, format := f, firstDetected := ts, lastDetected := ts, detectionCount := 1 },
       mapSet m (DeduplicationManager.generateKey v f)
         { result := { id := DeduplicationManager.generateKey v f, value := v, format := f, firstDetected := ts, lastDetected := ts, detectionCount := 1 },
           expiresAt := now + DUPLICATE_WINDOW_MS }) := by
  cases hm : mapGet m (DeduplicationManager.generateKey v f) with
  | none => simp only [DeduplicationManager.addOrUpdate, hm]
  | some e =>
    have hexp : ¬ now < e.expiresAt := Nat.not_lt.mpr (h e hm)
    simp only [DeduplicationManager.addOrUpdate, hm, if_neg hexp]

/-- Witness for C2 at a concrete expired entry (`expiresAt = 100 ≤ now = 100`):
the stale count 5 and old `firstDetected` are discarded. -/
theorem addOrUpdate_fresh_or_expired_creates_new_entry_witness :
    (DeduplicationManager.addOrUpdate
      [("f:v", { result := { id := "f:v", value := "v", format := "f", firstDetected := 1, lastDetected := 2, detectionCount := 5 }, expiresAt := 100 })]
      "v" "f" 42 100).1 =
      some { id := "f:v", value := "v", format := "f", firstDetected := 42, lastDetected := 42, detectionCount := 1 } := by
  have h := addOrUpdate_fresh_or_expired_creates_new_entry
    [("f:v", { result := { id := "f:v", value := "v", format := "f", firstDetected := 1, lastDetected := 2, detectionCount := 5 }, expiresAt := 100 })]
    "v" "f" 42 100
    (by
      intro e he
      have h2 : some ({ result := { id := "f:v", value := "v", format := "f", firstDetected := 1, lastDetected := 2, detectionCount := 5 }, expiresAt := 100 } : BarcodeEntry) = some e := he
      obtain rfl := Option.some.inj h2
      decide)
  rw [h]
  rfl

/-! ## C8: `clear` resets the store -/

/-- C8: `clear()` empties the store unconditionally and is idempotent;
after `clear()`, `getResults()` returns an empty sequence at any instant,
and any `addOrUpdate` behaves exactly as on a freshly constructed store,
returning a non-null entry with `detectionCount` reset to 1. -/
theorem clear_resets_store (m : DedupMap) (v f : String) (ts now₁ now₂ : Nat) :
    DeduplicationManager.clear (DeduplicationManager.clear m) = DeduplicationManager.clear m
    ∧ DeduplicationManager.clear m = []
    ∧ (DeduplicationManager.getResults (DeduplicationManager.clear m) now₁).1 = []
    ∧ DeduplicationManager.addOrUpdate (DeduplicationManager.clear m) v f ts now₂ =
        DeduplicationManager.addOrUpdate [] v f ts now₂
    ∧ (DeduplicationManager.addOrUpdate (DeduplicationManager.clear m) v f ts now₂).1 =
        some { id := DeduplicationManager.generateKey v f, value := v, format := f, firstDetected := ts, lastDetected := ts, detectionCount := 1 } :=
  ⟨rfl, rfl, rfl, rfl, rfl⟩

/-! ## C9: monotonicity of `lastDetected` -/

/-- C9 (counterexample): the claim says no accepted duplicate ever makes
`lastDetected` smaller.  But `addOrUpdate` copies the caller's timestamp
unconditionally: after a first detection stamped 100, an accepted
duplicate stamped 50 drops `lastDetected` from 100 to 50. -/
theorem lastDetected_can_decrease :
    ((DeduplicationManager.addOrUpdate
        (DeduplicationManager.addOrUpdate [] "v" "f" 100 0).2 "v" "f" 50 10).1 = none)
    ∧ ((mapGet (DeduplicationManager.addOrUpdate [] "v" "f" 100 0).2 "f:v").map
         (fun e => e.result.lastDetected) = some 100)
    ∧ ((mapGet (DeduplicationManager.addOrUpdate
          (DeduplicationManager.addOrUpdate [] "v" "f" 100 0).2 "v" "f" 50 10).2 "f:v").map
         (fun e => e.result.lastDetected) = some 50)
    ∧ (50 : Nat) < 100 := by
  decide

/-- C9 (amended): within an open window, an accepted duplicate rewrites
`lastDetected` to its own timestamp; hence `lastDetected` is monotonically
non-decreasing provided the accepted detections carry non-decreasing
timestamps. -/
theorem lastDetected_monotone_under_monotone_timestamps
    (m : DedupMap) (v f : String) (ts now : Nat) (e : BarcodeEntry)
    (hget : mapGet m (DeduplicationManager.generateKey v f) = some e)
    (hlive : now < e.expiresAt)
    (hts : e.result.lastDetected ≤ ts) :
    (DeduplicationManager.addOrUpdate m v f ts now).1 = none
    ∧ (mapGet (DeduplicationManager.addOrUpdate m v f ts now).2
         (DeduplicationManager.generateKey v f)).map (fun en => en.result.lastDetected) = some ts
    ∧ e.result.lastDetected ≤ ts := by
  refine ⟨?_, ?_, hts⟩
  · simp only [DeduplicationManager.addOrUpdate, hget, if_pos hlive]
  · simp only [DeduplicationManager.addOrUpdate, hget, if_pos hlive]
    rw [mapGet_mapSet_self]
    rfl

/-- Witness for C9's amended theorem at a concrete live entry. -/
theorem lastDetected_monotone_under_monotone_timestamps_witness :
    ((DeduplicationManager.addOrUpdate
        [("f:v", { result := { id := "f:v", value := "v", format := "f", firstDetected := 5, lastDetected := 40, detectionCount := 2 }, expiresAt := 1000 })]
        "v" "f" 60 900).1 = none)
    ∧ ((mapGet (DeduplicationManager.addOrUpdate
          [("f:v", { result := { id := "f:v", value := "v", format := "f", firstDetected := 5, lastDetected := 40, detectionCount := 2 }, expiresAt := 1000 })]
          "v" "f" 60 900).2 (DeduplicationManager.generateKey "v" "f")).map
        (fun en => en.result.lastDetected) = some 60)
    ∧ (40 : Nat) ≤ 60 := by
  have h := lastDetected_monotone_under_monotone_timestamps
    [("f:v", { result := { id := "f:v", value := "v", format := "f", firstDetected := 5, lastDetected := 40, detectionCount := 2 }, expiresAt := 1000 })]
    "v" "f" 60 900
    { result := { id := "f:v", value := "v", format := "f", firstDetected := 5, lastDetected := 40, detectionCount := 2 }, expiresAt := 1000 }
    (by decide) (by decide) (by decide)
  exact ⟨h.1, h.2.1, h.2.2⟩

/-! ## C4: the composite key -/

theorem append_cons_inj {α : Type} {c : α} :
    ∀ (l₁ l₂ r₁ r₂ : List α), c ∉ l₁ → c ∉ l₂ →
      l₁ ++ c :: r₁ = l₂ ++ c :: r₂ → l₁ = l₂ ∧ r₁ = r₂ := by
  intro l₁
  induction l₁ with
  | nil =>
    intro l₂ r₁ r₂ h₁ h₂ h
    cases l₂ with
    | nil => simpa using h
    | cons x xs =>
      rw [List.nil_append, List.cons_append] at h
      obtain ⟨rfl, -⟩ := List.cons.inj h
      exact absurd (List.mem_cons_self _ _) h₂
  | cons x xs ih =>
    intro l₂ r₁ r₂ h₁ h₂ h
    cases l₂ with
    | nil =>
      rw [List.cons_append, List.nil_append] at h
      obtain ⟨rfl, -⟩ := List.cons.inj h
      exact absurd (List.mem_cons_self _ _) h₁
    | cons y ys =>
      rw [List.cons_append, List.cons_append] at h
      obtain ⟨rfl, htl⟩ := List.cons.inj h
      have h₃ : c ∉ xs := fun hc => h₁ (List.mem_cons_of_mem _ hc)
      have h₄ : c ∉ ys := fun hc => h₂ (List.mem_cons_of_mem _ hc)
      obtain ⟨he, hr⟩ := ih ys r₁ r₂ h₃ h₄ htl
      exact ⟨by rw [he], hr⟩

theorem generateKey_data (v f : String) :
    (DeduplicationManager.generateKey v f).data = f.data ++ ':' :: v.data := by
  show (f ++ ":" ++ v).data = f.data ++ ':' :: v.data
  rw [String.data_append, String.data_append, List.append_assoc]
  rfl

/-- C4 (counterexample): the claim says the key function
`(value, format) -> format + ":" + value` is injective over all string
inputs, so that detections differing in value or format are never
aggregated.  A colon inside the format defeats this: `("C", "A:B")` and
`("B:C", "A")` produce the same key `"A:B:C"`, and the second detection
is absorbed as a duplicate of the first within the window. -/
theorem generateKey_not_injective :
    DeduplicationManager.generateKey "C" "A:B" = DeduplicationManager.generateKey "B:C" "A"
    ∧ ¬(("C" : String) = "B:C")
    ∧ ¬(("A:B" : String) = "A")
    ∧ (DeduplicationManager.addOrUpdate
         (DeduplicationManager.addOrUpdate [] "C" "A:B" 0 0).2 "B:C" "A" 1 1).1 = none := by
  refine ⟨rfl, by decide, by decide, by decide⟩

/-- C4 (amended): the entry id is computed deterministically as
`format + ":" + value`, and the key function is injective — so that two
detections are aggregated into the same entry iff value and format both
agree — provided the format strings contain no ':' character (all real
barcode format names are colon-free). -/
theorem generateKey_id_and_injective_on_colon_free_formats :
    (∀ (m : DedupMap) (v f : String) (ts now : Nat) (r : BarcodeResult) (m₂ : DedupMap),
       DeduplicationManager.addOrUpdate m v f ts now = (some r, m₂) →
         r.id = DeduplicationManager.generateKey v f)
    ∧ (∀ v₁ f₁ v₂ f₂ : String, ':' ∉ f₁.data → ':' ∉ f₂.data →
        (DeduplicationManager.generateKey v₁ f₁ = DeduplicationManager.generateKey v₂ f₂ ↔
          (v₁ = v₂ ∧ f₁ = f₂))) := by
  constructor
  · intro m v f ts now r m₂ h
    cases hm : mapGet m (DeduplicationManager.generateKey v f) with
    | none =>
      simp only [DeduplicationManager.addOrUpdate, hm] at h
      have h₁ := congrArg Prod.fst h
      obtain rfl := Option.some.inj h₁
      rfl
    | some e =>
      by_cases hl : now < e.expiresAt
      · simp only [DeduplicationManager.addOrUpdate, hm, if_pos hl] at h
        exact absurd (congrArg Prod.fst h) (by simp)
      · simp only [DeduplicationManager.addOrUpdate, hm, if_neg hl] at h
        have h₁ := congrArg Prod.fst h
        obtain rfl := Option.some.inj h₁
        rfl
  · intro v₁ f₁ v₂ f₂ h₁ h₂
    constructor
    · intro h
      have hd := congrArg String.data h
      rw [generateKey_data, generateKey_data] at hd
      obtain ⟨hf, hv⟩ := append_cons_inj f₁.data f₂.data v₁.data v₂.data h₁ h₂ hd
      exact ⟨String.ext hv, String.ext hf⟩
    · rintro ⟨rfl, rfl⟩
      rfl

/-- Witness for C4's amended theorem: a concrete creation gives id
`"f:v"`, and injectivity applied at the colon-free format `"EAN_13"`. -/
theorem generateKey_id_and_injective_on_colon_free_formats_witness :
    (("f:v" : String) = DeduplicationManager.generateKey "v" "f")
    ∧ (("ABC" : String) = "ABC" ∧ ("EAN_13" : String) = "EAN_13") :=
  ⟨generateKey_id_and_injective_on_colon_free_formats.1 [] "v" "f" 1 2
      { id := "f:v", value := "v", format := "f", firstDetected := 1, lastDetected := 1, detectionCount := 1 }
      [("f:v", { result := { id := "f:v", value := "v", format := "f", firstDetected := 1, lastDetected := 1, detectionCount := 1 }, expiresAt := 2002 })]
      rfl,
   (generateKey_id_and_injective_on_colon_free_formats.2 "ABC" "EAN_13" "ABC" "EAN_13"
      (by decide) (by decide)).mp rfl⟩

/-! ## C3: `getResults` sweeps and sorts -/

theorem insertDesc_perm (r : BarcodeResult) (l : List BarcodeResult) :
    List.Perm (DeduplicationManager.insertDesc r l) (r :: l) := by
  induction l with
  | nil => exact List.Perm.refl _
  | cons x xs ih =>
    rw [DeduplicationManager.insertDesc]
    by_cases h : r.firstDetected ≤ x.firstDetected
    · rw [if_pos h]
      exact (ih.cons x).trans (List.Perm.swap r x xs)
    · rw [if_neg h]

theorem sortDesc_perm (l : List BarcodeResult) :
    List.Perm (DeduplicationManager.sortDesc l) l := by
  induction l with
  | nil => exact List.Perm.refl _
  | cons x xs ih =>
    rw [DeduplicationManager.sortDesc]
    exact (insertDesc_perm x (DeduplicationManager.sortDesc xs)).trans (ih.cons x)

theorem pairwise_insertDesc (r : BarcodeResult) (l : List BarcodeResult)
    (h : l.Pairwise fun a b => b.firstDetected ≤ a.firstDetected) :
    (DeduplicationManager.insertDesc r l).Pairwise
      fun a b => b.firstDetected ≤ a.firstDetected := by
  induction l with
  | nil => simp [DeduplicationManager.insertDesc]
  | cons x xs ih =>
    rw [DeduplicationManager.insertDesc]
    rcases List.pairwise_cons.mp h with ⟨hx, hxs⟩
    by_cases hc : r.firstDetected ≤ x.firstDetected
    · rw [if_pos hc]
      refine List.pairwise_cons.mpr ⟨?_, ih hxs⟩
      intro y hy
      rcases List.mem_cons.mp ((insertDesc_perm r xs).mem_iff.mp hy) with rfl | hy
      · exact hc
      · exact hx y hy
    · rw [if_neg hc]
      push_neg at hc
      refine List.pairwise_cons.mpr ⟨?_, h⟩
      intro y hy
      rcases List.mem_cons.mp hy with rfl | hy
      · exact le_of_lt hc
      · exact le_trans (hx y hy) (le_of_lt hc)

theorem sortDesc_pairwise (l : List BarcodeResult) :
    (DeduplicationManager.sortDesc l).Pairwise
      fun a b => b.firstDetected ≤ a.firstDetected := by
  induction l with
  | nil => simp [DeduplicationManager.sortDesc]
  | cons x xs ih =>
    rw [DeduplicationManager.sortDesc]
    exact pairwise_insertDesc x _ ih

theorem getResultsLoop_snd (now : Nat) (l : DedupMap) :
    (DeduplicationManager.getResultsLoop now l).2 =
      l.filter fun ke => decide (now < ke.2.expiresAt) := by
  induction l with
  | nil => rfl
  | cons ke rest ih =>
    obtain ⟨k, e⟩ := ke
    by_cases h : now < e.expiresAt
    · simp [DeduplicationManager.getResultsLoop, h, ih, List.filter_cons]
    · simp [DeduplicationManager.getResultsLoop, h, ih, List.filter_cons]

theorem getResultsLoop_fst (now : Nat) (l : DedupMap) :
    (DeduplicationManager.getResultsLoop now l).1 =
      (l.filter fun ke => decide (now < ke.2.expiresAt)).map fun ke => ke.2.result := by
  induction l with
  | nil => rfl
  | cons ke rest ih =>
    obtain ⟨k, e⟩ := ke
    by_cases h : now < e.expiresAt
    · simp [DeduplicationManager.getResultsLoop, h, ih, List.filter_cons]
    · simp [DeduplicationManager.getResultsLoop, h, ih, List.filter_cons]

/-- C3: `getResults()` deletes from the map every entry whose `expiresAt`
is at most the wall-clock `now` of the call (the map afterwards holds
exactly the unexpired entries, in order), the returned sequence is a
permutation of the unexpired entries' results (expired entries are
omitted), and it is sorted by `firstDetected` descending: along the
returned sequence `firstDetected` never increases, so an entry first seen
at `t2` precedes every entry first seen at `t1 < t2`. -/
theorem getResults_evicts_and_sorts (m : DedupMap) (now : Nat) :
    (DeduplicationManager.getResults m now).2 =
        m.filter (fun ke => decide (now < ke.2.expiresAt))
    ∧ List.Perm (DeduplicationManager.getResults m now).1
        ((m.filter (fun ke => decide (now < ke.2.expiresAt))).map fun ke => ke.2.result)
    ∧ (DeduplicationManager.getResults m now).1.Pairwise
        (fun a b => b.firstDetected ≤ a.firstDetected) := by
  refine ⟨?_, ?_, ?_⟩
  · show (DeduplicationManager.getResultsLoop now m).2 = _
    exact getResultsLoop_snd now m
  · show List.Perm (DeduplicationManager.sortDesc (DeduplicationManager.getResultsLoop now m).1) _
    rw [← getResultsLoop_fst now m]
    exact sortDesc_perm _
  · show (DeduplicationManager.sortDesc (DeduplicationManager.getResultsLoop now m).1).Pairwise _
    exact sortDesc_pairwise _

/-! ## C5: the timestamp argument does not influence window lifetime

Two stores with equal `shape` (same keys with the same expiry instants, in
the same order) are indistinguishable to every lifetime decision; every
operation preserves equality of shapes, whatever timestamps it carries. -/

theorem mapGet_expiry_congr {m₁ m₂ : DedupMap} (h : shape m₁ = shape m₂) (k : String) :
    (mapGet m₁ k).map (fun e => e.expiresAt) = (mapGet m₂ k).map (fun e => e.expiresAt) := by
  induction m₁ generalizing m₂ with
  | nil =>
    cases m₂ with
    | nil => rfl
    | cons ke rest => simp [shape] at h
  | cons ke rest ih =>
    cases m₂ with
    | nil => simp [shape] at h
    | cons ke₂ rest₂ =>
      obtain ⟨ka, ea⟩ := ke
      obtain ⟨kb, eb⟩ := ke₂
      simp only [shape, List.map_cons, List.cons.injEq, Prod.mk.injEq] at h
      obtain ⟨⟨hk, he⟩, hrest⟩ := h
      subst hk
      by_cases hkk : ka = k
      · simp [mapGet, hkk, he]
      · simp only [mapGet, if_neg hkk]
        exact ih hrest

theorem shape_mapSet_congr {m₁ m₂ : DedupMap} (h : shape m₁ = shape m₂)
    (k : String) {v₁ v₂ : BarcodeEntry} (hv : v₁.expiresAt = v₂.expiresAt) :
    shape (mapSet m₁ k v₁) = shape (mapSet m₂ k v₂) := by
  induction m₁ generalizing m₂ with
  | nil =>
    cases m₂ with
    | nil => simp [mapSet, shape, hv]
    | cons ke rest => simp [shape] at h
  | cons ke rest ih =>
    cases m₂ with
    | nil => simp [shape] at h
    | cons ke₂ rest₂ =>
      obtain ⟨ka, ea⟩ := ke
      obtain ⟨kb, eb⟩ := ke₂
      simp only [shape, List.map_cons, List.cons.injEq, Prod.mk.injEq] at h
      obtain ⟨⟨hk, he⟩, hrest⟩ := h
      subst hk
      by_cases hkk : ka = k
      · simp [mapSet, hkk, shape, hv, hrest]
      · simp only [mapSet, if_neg hkk, shape, List.map_cons, List.cons.injEq, Prod.mk.injEq]
        exact ⟨⟨by trivial, he⟩, ih hrest⟩

theorem addOrUpdate_shape_congr {m₁ m₂ : DedupMap} (h : shape m₁ = shape m₂)
    (v f : String) (ts₁ ts₂ now : Nat) :
    ((DeduplicationManager.addOrUpdate m₁ v f ts₁ now).1.isSome =
       (DeduplicationManager.addOrUpdate m₂ v f ts₂ now).1.isSome)
    ∧ shape (DeduplicationManager.addOrUpdate m₁ v f ts₁ now).2 =
        shape (DeduplicationManager.addOrUpdate m₂ v f ts₂ now).2 := by
  have hget := mapGet_expiry_congr h (DeduplicationManager.generateKey v f)
  cases h₁ : mapGet m₁ (DeduplicationManager.generateKey v f) with
  | none =>
    cases h₂ : mapGet m₂ (DeduplicationManager.generateKey v f) with
    | none =>
      simp only [DeduplicationManager.addOrUpdate, h₁, h₂]
      exact ⟨by trivial, shape_mapSet_congr h _ rfl⟩
    | some e₂ => rw [h₁, h₂] at hget; simp at hget
  | some e₁ =>
    cases h₂ : mapGet m₂ (DeduplicationManager.generateKey v f) with
    | none => rw [h₁, h₂] at hget; simp at hget
    | some e₂ =>
      rw [h₁, h₂] at hget
      have hexp : e₁.expiresAt = e₂.expiresAt := Option.some.inj hget
      by_cases hl : now < e₁.expiresAt
      · have hl₂ : now < e₂.expiresAt := hexp ▸ hl
        simp only [DeduplicationManager.addOrUpdate, h₁, h₂, if_pos hl, if_pos hl₂]
        exact ⟨by trivial, shape_mapSet_congr h _ hexp⟩
      · have hl₂ : ¬ now < e₂.expiresAt := hexp ▸ hl
        simp only [DeduplicationManager.addOrUpdate, h₁, h₂, if_neg hl, if_neg hl₂]
        exact ⟨by trivial, shape_mapSet_congr h _ rfl⟩

theorem evictedKeys_congr {m₁ m₂ : DedupMap} (h : shape m₁ = shape m₂) (now : Nat) :
    evictedKeys m₁ now = evictedKeys m₂ now := by
  induction m₁ generalizing m₂ with
  | nil =>
    cases m₂ with
    | nil => rfl
    | cons ke rest => simp [shape] at h
  | cons ke rest ih =>
    cases m₂ with
    | nil => simp [shape] at h
    | cons ke₂ rest₂ =>
      obtain ⟨ka, ea⟩ := ke
      obtain ⟨kb, eb⟩ := ke₂
      simp only [shape, List.map_cons, List.cons.injEq, Prod.mk.injEq] at h
      obtain ⟨⟨hk, he⟩, hrest⟩ := h
      subst hk
      by_cases hlive : now < ea.expiresAt
      · have hlive₂ : now < eb.expiresAt := he ▸ hlive
        simp only [evictedKeys, List.filter_cons]
        rw [if_neg (by simp [hlive]), if_neg (by simp [hlive₂])]
        exact ih hrest
      · have hlive₂ : ¬ now < eb.expiresAt := he ▸ hlive
        simp only [evictedKeys, List.filter_cons]
        rw [if_pos (by simp [hlive]), if_pos (by simp [hlive₂]), List.map_cons, List.map_cons]
        exact congrArg (fun l => ka :: l) (ih hrest)

theorem shape_filter_live_congr {m₁ m₂ : DedupMap} (h : shape m₁ = shape m₂) (now : Nat) :
    shape (m₁.filter fun ke => decide (now < ke.2.expiresAt)) =
      shape (m₂.filter fun ke => decide (now < ke.2.expiresAt)) := by
  induction m₁ generalizing m₂ with
  | nil =>
    cases m₂ with
    | nil => rfl
    | cons ke rest => simp [shape] at h
  | cons ke rest ih =>
    cases m₂ with
    | nil => simp [shape] at h
    | cons ke₂ rest₂ =>
      obtain ⟨ka, ea⟩ := ke
      obtain ⟨kb, eb⟩ := ke₂
      simp only [shape, List.map_cons, List.cons.injEq, Prod.mk.injEq] at h
      obtain ⟨⟨hk, he⟩, hrest⟩ := h
      subst hk
      by_cases hlive : now < ea.expiresAt
      · have hlive₂ : now < eb.expiresAt := he ▸ hlive
        simp only [List.filter_cons]
        rw [if_pos (by simp [hlive]), if_pos (by simp [hlive₂])]
        simp only [shape, List.map_cons, List.cons.injEq, Prod.mk.injEq]
        exact ⟨⟨by trivial, he⟩, ih hrest⟩
      · have hlive₂ : ¬ now < eb.expiresAt := he ▸ hlive
        simp only [List.filter_cons]
        rw [if_neg (by simp [hlive]), if_neg (by simp [hlive₂])]
        exact ih hrest

theorem runOps_congr : ∀ {t₁ t₂ : List TimedOp} {m₁ m₂ : DedupMap},
    shape m₁ = shape m₂ → opsMatch t₁ t₂ = true → runOps m₁ t₁ = runOps m₂ t₂ := by
  intro t₁
  induction t₁ with
  | nil =>
    intro t₂ m₁ m₂ _ hmatch
    cases t₂ with
    | nil => rfl
    | cons op rest => simp [opsMatch] at hmatch
  | cons op₁ rest₁ ih =>
    intro t₂ m₁ m₂ h hmatch
    cases t₂ with
    | nil =>
      obtain ⟨o, n⟩ := op₁
      cases o <;> simp [opsMatch] at hmatch
    | cons op₂ rest₂ =>
      obtain ⟨o₁, n₁⟩ := op₁
      obtain ⟨o₂, n₂⟩ := op₂
      cases o₁ with
      | add v₁ f₁ ts₁ =>
        cases o₂ with
        | add v₂ f₂ ts₂ =>
          simp only [opsMatch, Bool.and_eq_true, decide_eq_true_eq] at hmatch
          obtain ⟨⟨⟨hv, hf⟩, hn⟩, hrest⟩ := hmatch
          subst hv; subst hf; subst hn
          obtain ⟨hfst, hsnd⟩ := addOrUpdate_shape_congr h v₁ f₁ ts₁ ts₂ n₁
          simp only [runOps]
          rw [hfst]
          exact congrArg _ (ih hsnd hrest)
        | get => simp [opsMatch] at hmatch
      | get =>
        cases o₂ with
        | add v₂ f₂ ts₂ => simp [opsMatch] at hmatch
        | get =>
          simp only [opsMatch, Bool.and_eq_true, decide_eq_true_eq] at hmatch
          obtain ⟨hn, hrest⟩ := hmatch
          subst hn
          simp only [runOps]
          rw [evictedKeys_congr h n₁]
          refine congrArg _ (ih ?_ hrest)
          show shape (DeduplicationManager.getResultsLoop n₁ m₁).2 =
            shape (DeduplicationManager.getResultsLoop n₁ m₂).2
          rw [getResultsLoop_snd n₁ m₁, getResultsLoop_snd n₁ m₂]
          exact shape_filter_live_congr h n₁

/-- C5: for any two runs of the same sequence of `addOrUpdate` /
`getResults` calls at the same wall-clock instants but with arbitrarily
different `timestamp` arguments, the null-vs-non-null outcome of every
`addOrUpdate` call and the keys evicted by every `getResults` call are
identical: the timestamp parameter never influences window lifetime,
which is computed solely from wall-clock `now` at call time. -/
theorem timestamps_do_not_affect_lifetime (t₁ t₂ : List TimedOp)
    (h : opsMatch t₁ t₂ = true) :
    runOps [] t₁ = runOps [] t₂ :=
  runOps_congr rfl h

/-- Witness for C5: two concrete three-call runs that differ only in
their timestamp arguments produce the same observations. -/
theorem timestamps_do_not_affect_lifetime_witness :
    opsMatch
        [(.add "v" "f" 10, 0), (.add "v" "f" 99, 1), (.get, 5000)]
        [(.add "v" "f" 77, 0), (.add "v" "f" 3, 1), (.get, 5000)] = true
    ∧ runOps [] [(.add "v" "f" 10, 0), (.add "v" "f" 99, 1), (.get, 5000)] =
        runOps [] [(.add "v" "f" 77, 0), (.add "v" "f" 3, 1), (.get, 5000)] :=
  ⟨by decide,
   timestamps_do_not_affect_lifetime
     [(.add "v" "f" 10, 0), (.add "v" "f" 99, 1), (.get, 5000)]
     [(.add "v" "f" 77, 0), (.add "v" "f" 3, 1), (.get, 5000)]
     (by decide)⟩

/-! ## C6, C7, C10: the single-shot state machine and the analysis wrapper -/

theorem addOrUpdate_snd_ne_nil (m : DedupMap) (v f : String) (ts now : Nat) :
    (DeduplicationManager.addOrUpdate m v f ts now).2 ≠ [] := by
  cases hm : mapGet m (DeduplicationManager.generateKey v f) with
  | none =>
    simp only [DeduplicationManager.addOrUpdate, hm]
    exact mapSet_ne_nil _ _ _
  | some e =>
    by_cases hl : now < e.expiresAt
    · simp only [DeduplicationManager.addOrUpdate, hm, if_pos hl]
      exact mapSet_ne_nil _ _ _
    · simp only [DeduplicationManager.addOrUpdate, hm, if_neg hl]
      exact mapSet_ne_nil _ _ _

theorem processBarcodes_preserves_ne_nil (clock : Nat → Nat) :
    ∀ (bs : List RawBarcode) (i : Nat) (m : DedupMap), m ≠ [] →
      (processBarcodes clock i m bs).1 ≠ [] := by
  intro bs
  induction bs with
  | nil => intro i m h; exact h
  | cons b rest ih =>
    intro i m _
    rw [processBarcodes]
    exact ih (i + 2) _ (addOrUpdate_snd_ne_nil _ _ _ _ _)

theorem processBarcodes_idx (clock : Nat → Nat) :
    ∀ (bs : List RawBarcode) (i : Nat) (m : DedupMap),
      (processBarcodes clock i m bs).2 = i + 2 * bs.length := by
  intro bs
  induction bs with
  | nil => intro i m; simp [processBarcodes]
  | cons b rest ih =>
    intro i m
    rw [processBarcodes, ih, List.length_cons]
    omega

theorem addOrUpdate_expiry_bound {m : DedupMap} {B : Nat} (v f : String) (ts now : Nat)
    (hm : ∀ ke ∈ m, B ≤ ke.2.expiresAt) (hnow : B ≤ now + DUPLICATE_WINDOW_MS) :
    ∀ ke ∈ (DeduplicationManager.addOrUpdate m v f ts now).2, B ≤ ke.2.expiresAt := by
  intro ke hke
  cases hg : mapGet m (DeduplicationManager.generateKey v f) with
  | none =>
    simp only [DeduplicationManager.addOrUpdate, hg] at hke
    rcases mem_mapSet hke with rfl | h
    · exact hnow
    · exact hm ke h
  | some e =>
    by_cases hl : now < e.expiresAt
    · simp only [DeduplicationManager.addOrUpdate, hg, if_pos hl] at hke
      rcases mem_mapSet hke with rfl | h
      · have hmem := hm _ (mapGet_mem hg)
        exact hmem
      · exact hm ke h
    · simp only [DeduplicationManager.addOrUpdate, hg, if_neg hl] at hke
      rcases mem_mapSet hke with rfl | h
      · exact hnow
      · exact hm ke h

theorem processBarcodes_expiry_bound (clock : Nat → Nat)
    (hmono : ∀ a b : Nat, a ≤ b → clock a ≤ clock b) :
    ∀ (bs : List RawBarcode) (i : Nat) (m : DedupMap),
      (∀ ke ∈ m, clock 0 + DUPLICATE_WINDOW_MS ≤ ke.2.expiresAt) →
      ∀ ke ∈ (processBarcodes clock i m bs).1,
        clock 0 + DUPLICATE_WINDOW_MS ≤ ke.2.expiresAt := by
  intro bs
  induction bs with
  | nil => intro i m hm ke hke; exact hm ke hke
  | cons b rest ih =>
    intro i m hm ke hke
    rw [processBarcodes] at hke
    refine ih (i + 2) _ ?_ ke hke
    exact addOrUpdate_expiry_bound _ _ _ _ hm
      (Nat.add_le_add_right (hmono 0 (i + 1) (Nat.zero_le _)) _)

theorem getResults_fst_ne_nil_of_live {m : DedupMap} {now : Nat}
    (hm : ∀ ke ∈ m, now < ke.2.expiresAt) (hne : m ≠ []) :
    (DeduplicationManager.getResults m now).1 ≠ [] := by
  have hfilter : m.filter (fun ke => decide (now < ke.2.expiresAt)) = m :=
    List.filter_eq_self.mpr fun ke hke => decide_eq_true (hm ke hke)
  have hfst := getResultsLoop_fst now m
  rw [hfilter] at hfst
  intro hcontra
  have hperm : List.Perm (DeduplicationManager.getResults m now).1
      (DeduplicationManager.getResultsLoop now m).1 := sortDesc_perm _
  have hlen := hperm.length_eq
  rw [hcontra, hfst, List.length_map, List.length_nil] at hlen
  exact hne (List.length_eq_zero.mp hlen.symm)

/-- C10: `detectFromImage` never rejects: whatever way the raced analysis
settles — including image-load failure, missing canvas context, an
analysis exception, or the 5000 ms timeout — the call returns a value with
`isScanning` reset to false, and on every failure mode it resolves with
the empty array while recording the error message in the hook state, so
no exception propagates to the caller. -/
theorem detectFromImage_always_resolves (clock : Nat → Nat) (outcome : AnalysisOutcome)
    (st : HookState) :
    ((detectFromImage clock outcome st).2.detection.isScanning = false)
    ∧ (∀ msg, outcome = .fail msg →
        detectFromImage clock outcome st =
          ([], { detection := { results := [], isScanning := false, error := some msg },
                 dedup := [] }))
    ∧ (outcome = .timeout →
        detectFromImage clock outcome st =
          ([], { detection := { results := [], isScanning := false, error := some timeoutMessage },
                 dedup := [] })) := by
  refine ⟨?_, ?_, ?_⟩
  · cases outcome with
    | ok bs =>
      by_cases h : bs.length > 0
      · simp [detectFromImage, h]
      · simp [detectFromImage, h]
    | fail msg => rfl
    | timeout => rfl
  · rintro msg rfl
    rfl
  · rintro rfl
    rfl

/-- Witness for C10 at the concrete analysis failure "boom". -/
theorem detectFromImage_always_resolves_witness :
    AnalysisOutcome.fail "boom" = AnalysisOutcome.fail "boom"
    ∧ detectFromImage (fun _ => 0) (.fail "boom")
        { detection := { results := [], isScanning := true, error := none }, dedup := [] } =
      ([], { detection := { results := [], isScanning := false, error := some "boom" },
             dedup := [] }) :=
  ⟨rfl,
   (detectFromImage_always_resolves (fun _ => 0) (.fail "boom")
       { detection := { results := [], isScanning := true, error := none },
         dedup := [] }).2.1 "boom" rfl⟩

/-- C6 (code evaluated at the failing input): when the decode capability
does not complete within the 5000 ms timeout, `detectFromImage` swallows
the timeout rejection and resolves with the empty array, so
`handleCapturePhoto` transitions processing → no-result — not to the
error state the specification mandates; the timeout message is recorded
only in the hook's never-displayed `error` field. -/
theorem timeout_lands_in_noResult_state :
    ((handleCapturePhoto (fun _ => 0) true (some "photo") .timeout
        { scanState := .idle, errorMessage := none }
        { detection := { results := [], isScanning := false, error := none },
          dedup := [] }).1 = [ScanState.processing, ScanState.noResult])
    ∧ ((handleCapturePhoto (fun _ => 0) true (some "photo") .timeout
        { scanState := .idle, errorMessage := none }
        { detection := { results := [], isScanning := false, error := none },
          dedup := [] }).2.1.scanState = ScanState.noResult)
    ∧ ((handleCapturePhoto (fun _ => 0) true (some "photo") .timeout
        { scanState := .idle, errorMessage := none }
        { detection := { results := [], isScanning := false, error := none },
          dedup := [] }).2.2.detection.error = some timeoutMessage)
    ∧ ScanState.noResult ≠ ScanState.error := by
  decide

/-- C7: in single-shot mode a capture from idle enters `processing`; if
the decode capability returns a non-empty list (and the run's clock reads
stay within one window, as synchronous processing does), the machine ends
in `completed` with the deduplicated results resolved by
`detectFromImage` (a non-empty list); if the decode list is empty the
machine ends in `no-result`, a successful empty outcome distinct from the
`error` state. -/
theorem singleShot_completed_or_noResult (clock : Nat → Nat) (bs : List RawBarcode)
    (photo : String) (app : AppState) (hook : HookState)
    (hmono : ∀ a b : Nat, a ≤ b → clock a ≤ clock b)
    (hbound : clock (2 * bs.length) < clock 0 + DUPLICATE_WINDOW_MS) :
    (bs = [] →
      (handleCapturePhoto clock true (some photo) (.ok bs) app hook).1 =
        [ScanState.processing, ScanState.noResult]
      ∧ (handleCapturePhoto clock true (some photo) (.ok bs) app hook).2.1.scanState =
          ScanState.noResult)
    ∧ (bs ≠ [] →
      (handleCapturePhoto clock true (some photo) (.ok bs) app hook).1 =
        [ScanState.processing, ScanState.completed]
      ∧ (handleCapturePhoto clock true (some photo) (.ok bs) app hook).2.1.scanState =
          ScanState.completed
      ∧ (handleCapturePhoto clock true (some photo) (.ok bs) app hook).2.2.detection.results =
          (detectFromImage clock (.ok bs) hook).1
      ∧ (detectFromImage clock (.ok bs) hook).1 ≠ [])
    ∧ ScanState.noResult ≠ ScanState.error := by
  refine ⟨?_, ?_, by decide⟩
  · rintro rfl
    exact ⟨rfl, rfl⟩
  · intro hne
    have hgt : bs.length > 0 := List.length_pos.mpr hne
    have hmapne : (processBarcodes clock 0 [] bs).1 ≠ [] := by
      obtain ⟨b, rest, rfl⟩ := List.exists_cons_of_ne_nil hne
      rw [processBarcodes]
      exact processBarcodes_preserves_ne_nil clock rest 2 _ (addOrUpdate_snd_ne_nil _ _ _ _ _)
    have hlive : ∀ ke ∈ (processBarcodes clock 0 [] bs).1,
        clock ((processBarcodes clock 0 [] bs).2) < ke.2.expiresAt := by
      intro ke hke
      have hB := processBarcodes_expiry_bound clock hmono bs 0 []
        (by intro ke h; cases h) ke hke
      have hidx : (processBarcodes clock 0 [] bs).2 = 2 * bs.length := by
        rw [processBarcodes_idx]
        omega
      rw [hidx]
      exact lt_of_lt_of_le hbound hB
    have hrs : (detectFromImage clock (.ok bs) hook).1 =
        (DeduplicationManager.getResults (processBarcodes clock 0 [] bs).1
          (clock ((processBarcodes clock 0 [] bs).2))).1 := by
      simp only [detectFromImage, if_pos hgt]
    have hrsne : (detectFromImage clock (.ok bs) hook).1 ≠ [] := by
      rw [hrs]
      exact getResults_fst_ne_nil_of_live hlive hmapne
    have hlen : (detectFromImage clock (.ok bs) hook).1.length > 0 :=
      List.length_pos.mpr hrsne
    have happ : handleCapturePhoto clock true (some photo) (.ok bs) app hook =
        ([ScanState.processing, ScanState.completed],
         { scanState := .completed, errorMessage := none },
         (detectFromImage clock (.ok bs) hook).2) := by
      show (if (detectFromImage clock (.ok bs) hook).1.length > 0 then
          ([ScanState.processing, ScanState.completed],
           ({ scanState := .completed, errorMessage := none } : AppState),
           (detectFromImage clock (.ok bs) hook).2)
        else
          ([ScanState.processing, ScanState.noResult],
           ({ scanState := .noResult, errorMessage := none } : AppState),
           (detectFromImage clock (.ok bs) hook).2)) = _
      rw [if_pos hlen]
    refine ⟨?_, ?_, ?_, hrsne⟩
    · rw [happ]
    · rw [happ]
    · rw [happ]
      show (detectFromImage clock (.ok bs) hook).2.detection.results = _
      simp only [detectFromImage, if_pos hgt]

/-- Witness for C7 at a constant clock and a single decoded barcode. -/
theorem singleShot_completed_or_noResult_witness :
    (∀ a b : Nat, a ≤ b → (fun _ => (0 : Nat)) a ≤ (fun _ => (0 : Nat)) b)
    ∧ ((fun _ => (0 : Nat)) (2 * [({ code := "0123456789012", format := "EAN_13" } : RawBarcode)].length) <
        (fun _ => (0 : Nat)) 0 + DUPLICATE_WINDOW_MS)
    ∧ (handleCapturePhoto (fun _ => 0) true (some "photo")
        (.ok [{ code := "0123456789012", format := "EAN_13" }])
        { scanState := .idle, errorMessage := none }
        { detection := { results := [], isScanning := false, error := none },
          dedup := [] }).1 = [ScanState.processing, ScanState.completed] := by
  refine ⟨fun a b _ => le_rfl, by decide, ?_⟩
  have h := singleShot_completed_or_noResult (fun _ => 0)
    [{ code := "0123456789012", format := "EAN_13" }] "photo"
    { scanState := .idle, errorMessage := none }
    { detection := { results := [], isScanning := false, error := none }, dedup := [] }
    (fun a b _ => le_rfl) (by decide)
  exact (h.2.1 (by decide)).1

end BarcodeScanner
